import Mathlib

/-!
# Verification of the sandboxed code-execution engine (`code_executor.py`)

This file gives a shallow embedding of the execution sandbox of the
`ai_data_analyst` repository: the `execute_code` function together with its
helpers `_collect_figures`, `_collect_tables`, the `SAFE_BUILTINS` allow-list
and the `ExecutionResult` record, and proves the specification claims about
them.

Modelling choices, in source order:

* A pandas `DataFrame` is a list of column names plus row-major integer cell
  data; `shape` is `(row count, column count)` as in pandas.
* Python objects live on a heap.  The heap is split in two regions: the
  caller's region (objects that exist before `execute_code` is entered, in
  particular the input dataset) and the sandbox region (objects allocated
  during the call: the `dataframe.copy()` and everything the code builds).
  A reference names a cell of one of the two regions.  The split only labels
  which call allocated an object; reads and writes dispatch on the label, and
  nothing prevents a statement from writing a caller cell if a caller
  reference were reachable — that it is not reachable is proved, not assumed.
* The untrusted code is modelled as the cooperative fragment the spec scopes
  ("cooperative, not adversarial-hardened isolation"): line-structured
  straight-line statements — assignment, bare expression, in-place dataframe
  cell/column writes, `raise` — over expressions made of literals, name
  references, zero/one-argument calls of named callables, and the
  `pd.DataFrame`/plotly figure constructors.  Each line carries its source
  text (used by the textual last-line heuristic of `execute_code`) and its
  parsed statement (used by `exec`/`eval`).
* Name resolution follows `exec` with explicit dicts: local scope, then
  `safe_globals`, then the mapping stored under the `"__builtins__"` key of
  the globals.  Assignments bind in `local_scope`, exactly as `exec(code,
  safe_globals, local_scope)` does.
* `traceback.format_exc(limit=4)` is abstracted to a fixed-shape trace string
  ending in the exception line; the frame budget is not modelled.
* `str()` renderings of dataframes and containers are abbreviated; no claim
  depends on them.
-/

namespace DataMind

/-! ## Tabular data model -/

/-- An in-memory tabular dataset: named columns and row-major integer cells. -/
structure DataFrame where
  columns : List String
  rows : List (List Int)
deriving DecidableEq, Repr

/-- `df.shape` as in pandas: `(number of rows, number of columns)`. -/
def DataFrame.shape (d : DataFrame) : Nat × Nat := (d.rows.length, d.columns.length)

def emptyDF : DataFrame := ⟨[], []⟩

/-- A heap reference, labelled by the region that allocated the object:
`caller i` is the i-th object of the caller's region (it exists before the
call), `sand i` is the i-th object allocated by the sandboxed execution. -/
inductive Ref where
  | caller (i : Nat)
  | sand (i : Nat)
deriving DecidableEq, Repr

/-! ## Python values

Values that can be bound to a name after executing analysis code: scalars,
strings, dataframe references, plotly figures (identified by an id, their
internals are irrelevant here), modules, builtin callables, exception types,
and the four container shapes `_collect_figures`/`_collect_tables` walk. -/

inductive Val where
  | vNone
  | vInt (n : Int)
  | vStr (s : String)
  | vDFRef (r : Ref)
  | vFig (figId : Nat)
  | vModule (m : String)
  | vBuiltin (f : String)
  | vExcType (e : String)
  | vList (xs : List Val)
  | vTuple (xs : List Val)
  | vSet (xs : List Val)
  | vDict (keys : List Val) (vals : List Val)

/-! ## The capability allow-list (`SAFE_BUILTINS`) -/

/-- The names admitted into `SAFE_BUILTINS`, in source order. -/
def safeBuiltinNames : List String :=
  ["abs", "all", "any", "bool", "dict", "enumerate", "float", "int", "len",
   "list", "max", "min", "pow", "range", "round", "set", "sorted", "sum",
   "tuple", "zip", "str", "repr", "print", "ValueError", "KeyError",
   "TypeError", "AttributeError", "IndexError"]

/-- `getattr(builtins, name)`: exception names denote exception types, the
rest denote builtin callables. -/
def builtinVal (n : String) : Val :=
  if n = "ValueError" ∨ n = "KeyError" ∨ n = "TypeError" ∨
     n = "AttributeError" ∨ n = "IndexError" then .vExcType n else .vBuiltin n

/-- The `SAFE_BUILTINS` dict itself (it is an ordinary dict object, and it is
what `safe_globals["__builtins__"]` is bound to). -/
def safeBuiltinsVal : Val :=
  .vDict (safeBuiltinNames.map .vStr) (safeBuiltinNames.map builtinVal)

/-- `safe_globals` as built by `execute_code`, in source order.  The private
dataset copy is always the first sandbox allocation, hence `df` is bound to
`Ref.sand 0`. -/
def safeGlobals : List (String × Val) :=
  [("__builtins__", safeBuiltinsVal),
   ("pd", .vModule "pandas"),
   ("np", .vModule "numpy"),
   ("px", .vModule "plotly.express"),
   ("go", .vModule "plotly.graph_objects"),
   ("df", .vDFRef (.sand 0)),
   ("ValueError", .vExcType "ValueError"),
   ("KeyError", .vExcType "KeyError"),
   ("TypeError", .vExcType "TypeError")]

/-! ## Execution results and errors -/

inductive Err where
  | nameErr (n : String)
  | typeErr (msg : String)
  | valErr (msg : String)
  | idxErr (msg : String)
  | synErr (msg : String)
deriving DecidableEq, Repr

def excLine : Err → String
  | .nameErr n => "NameError: name " ++ n ++ " is not defined"
  | .typeErr m => "TypeError: " ++ m
  | .valErr m => "ValueError: " ++ m
  | .idxErr m => "IndexError: " ++ m
  | .synErr m => "SyntaxError: " ++ m

/-- Models `traceback.format_exc(limit=4)`: a bounded trace ending in the
exception line.  The frame text is abstracted to its header. -/
def formatErr (e : Err) : String :=
  "Traceback (most recent call last):\n" ++ excLine e ++ "\n"

/-- The artifacts produced by one execution, mirroring the `ExecutionResult`
dataclass: figures (by id), derived tables, captured stdout, optional error. -/
structure ExecutionResult where
  figures : List Nat
  tables : List DataFrame
  stdout : String
  error : Option String
deriving Repr

/-- The `success` property of `ExecutionResult`. -/
def ExecutionResult.success (r : ExecutionResult) : Bool := r.error.isNone

/-! ## Python-style string helpers

`execute_code` drives its control flow with `str.strip`, `str.split` and
`str.startswith`; these are reimplemented here on character lists with
Python's semantics. -/

/-- The whitespace recognised by `str.strip()`. -/
def pySpace (c : Char) : Bool :=
  c = ' ' || c = '\t' || c = '\n' || c = '\r' || c = '\x0b' || c = '\x0c'

def pyStripList (cs : List Char) : List Char :=
  ((cs.dropWhile pySpace).reverse.dropWhile pySpace).reverse

/-- Python `s.strip()`. -/
def pyStrip (s : String) : String := ⟨pyStripList s.data⟩

/-- Python `s.startswith(p)`. -/
def startsWithStr (p s : String) : Bool := p.data.isPrefixOf s.data

/-- Python `s.split("#")[0]`: the prefix before the first `#`. -/
def beforeHash (s : String) : String := ⟨s.data.takeWhile (fun c => c ≠ '#')⟩

def joinWith (sep : String) : List String → String
  | [] => ""
  | [s] => s
  | s :: rest => s ++ sep ++ joinWith sep rest

/-! ## The untrusted code fragment -/

inductive Expr where
  | intLit (n : Int)
  | strLit (s : String)
  | name (x : String)
  /-- `f()` for a plain callable name `f`. -/
  | call0 (f : String)
  /-- `f(a)` for a plain callable name `f`. -/
  | call1 (f : String) (a : Expr)
  /-- `pd.DataFrame({...})` with literal column data (resolves `pd`). -/
  | mkDataFrame (cols : List String) (rows : List (List Int))
  /-- a `px.`/`go.` figure constructor (resolves `px`); figure identity is
  abstracted to an id. -/
  | mkFigure (figId : Nat)
deriving DecidableEq, Repr

inductive Stmt where
  /-- `x = e` — binds `x` in `local_scope`, as `exec` with separate dicts does. -/
  | assign (x : String) (e : Expr)
  /-- a bare expression statement: evaluated, value discarded. -/
  | exprStmt (e : Expr)
  /-- `x.iat[i, j] = v` — in-place cell write on the dataframe object `x` names. -/
  | setCell (x : String) (i j : Nat) (v : Int)
  /-- `x[c] = vals` — in-place add-or-replace of a column on the object `x` names. -/
  | setColumn (x : String) (c : String) (vals : List Int)
  /-- `raise ValueError(msg)`. -/
  | raiseStmt (msg : String)
deriving DecidableEq, Repr

/-- One physical line of the submitted code: its source text (seen by the
textual last-line heuristic) and the statement it parses to (`none` for a
blank or comment-only line). -/
structure Line where
  text : String
  stmt : Option Stmt
deriving DecidableEq, Repr

/-- `code` as a string: the lines joined by newlines. -/
def codeText (code : List Line) : String := joinWith "\n" (code.map Line.text)

/-! ## Execution state and semantics -/

/-- The mutable state of one sandboxed execution: the `local_scope` dict, the
two heap regions, and the redirected-stdout buffer. -/
structure EState where
  locals : List (String × Val)
  callerStore : List DataFrame
  sandStore : List DataFrame
  out : String

def getDF (store : List DataFrame) (i : Nat) : DataFrame := store.getD i emptyDF

def readDF (cs ss : List DataFrame) : Ref → DataFrame
  | .caller i => getDF cs i
  | .sand i => getDF ss i

def readRef (σ : EState) (r : Ref) : DataFrame := readDF σ.callerStore σ.sandStore r

def writeRef (σ : EState) (r : Ref) (d : DataFrame) : EState :=
  match r with
  | .caller i => { σ with callerStore := σ.callerStore.set i d }
  | .sand i => { σ with sandStore := σ.sandStore.set i d }

def lookupAssoc : List (String × Val) → String → Option Val
  | [], _ => none
  | (k, v) :: rest, x => if k = x then some v else lookupAssoc rest x

/-- Lookup of a string key in a dict value given by parallel key/value lists. -/
def dictLookupStr : List Val → List Val → String → Option Val
  | .vStr k :: ks, v :: vs, x =>
    if k = x then some v else dictLookupStr ks vs x
  | _ :: ks, _ :: vs, x => dictLookupStr ks vs x
  | _, _, _ => none

/-- Name resolution of `exec(code, safe_globals, local_scope)`: local scope,
then globals, then the mapping bound to the `"__builtins__"` key of globals. -/
def lookupName (g l : List (String × Val)) (x : String) : Option Val :=
  match lookupAssoc l x with
  | some v => some v
  | none =>
    match lookupAssoc g x with
    | some v => some v
    | none =>
      match lookupAssoc g "__builtins__" with
      | some (.vDict ks vs) => dictLookupStr ks vs x
      | _ => none

/-- Dict insertion-order update: an existing key keeps its position, a new key
is appended (CPython dict semantics, which fixes `.values()` order). -/
def setVar : List (String × Val) → String → Val → List (String × Val)
  | [], x, v => [(x, v)]
  | (k, w) :: rest, x, v =>
    if k = x then (k, v) :: rest else (k, w) :: setVar rest x v

/-! ## `str()` rendering (used by `print`) -/

def digitChar (n : Nat) : Char := Char.ofNat (48 + n)

def natStrAux : Nat → Nat → String
  | 0, _ => ""
  | fuel + 1, n =>
    if n < 10 then ⟨[digitChar n]⟩
    else natStrAux fuel (n / 10) ++ ⟨[digitChar (n % 10)]⟩

def natStr (n : Nat) : String := natStrAux (n + 1) n

def intStr (n : Int) : String :=
  if n < 0 then "-" ++ natStr n.natAbs else natStr n.natAbs

/-- Abbreviated rendering of a dataframe (pandas prints a full table; only
the fact that *something* is printed matters to the verified claims). -/
def renderDF (d : DataFrame) : String :=
  "DataFrame(" ++ joinWith ", " d.columns ++ ")"

/-- Python `str()` of a value.  Container renderings are abbreviated; no
verified claim depends on them. -/
def strOfVal (cs ss : List DataFrame) : Val → String
  | .vNone => "None"
  | .vInt n => intStr n
  | .vStr s => s
  | .vDFRef r => renderDF (readDF cs ss r)
  | .vFig i => "Figure(" ++ natStr i ++ ")"
  | .vModule m => "<module " ++ m ++ ">"
  | .vBuiltin f => "<built-in function " ++ f ++ ">"
  | .vExcType e => "<class " ++ e ++ ">"
  | .vList _ => "[...]"
  | .vTuple _ => "(...)"
  | .vSet _ => "\x7b...\x7d"
  | .vDict _ _ => "\x7b...\x7d"

/-! ## Builtin application -/

def lenOfVal (σ : EState) : Val → Except Err Int
  | .vStr s => .ok s.length
  | .vList xs => .ok xs.length
  | .vTuple xs => .ok xs.length
  | .vSet xs => .ok xs.length
  | .vDict ks _ => .ok ks.length
  | .vDFRef r => .ok (readRef σ r).rows.length
  | _ => .error (.typeErr "object has no len")

/-- Semantics of the allow-listed builtins that the verified claims exercise;
the return values of the remaining ones are abstracted to `None` (no claim
depends on them).  `print` is the one with a side effect: it appends the
space-separated `str()` renderings plus a newline to the captured stdout. -/
def applyBuiltin (b : String) (args : List Val) (σ : EState) :
    EState × Except Err Val :=
  if b = "print" then
    ({ σ with
        out := σ.out ++
          joinWith " " (args.map (strOfVal σ.callerStore σ.sandStore)) ++ "\n" },
     .ok .vNone)
  else if b = "len" then
    match args with
    | [v] =>
      match lenOfVal σ v with
      | .ok n => (σ, .ok (.vInt n))
      | .error e => (σ, .error e)
    | _ => (σ, .error (.typeErr "len() takes exactly one argument"))
  else if b = "str" then
    match args with
    | [v] => (σ, .ok (.vStr (strOfVal σ.callerStore σ.sandStore v)))
    | _ => (σ, .error (.typeErr "str() takes one argument here"))
  else if b = "abs" then
    match args with
    | [.vInt n] => (σ, .ok (.vInt (if n < 0 then -n else n)))
    | _ => (σ, .error (.typeErr "bad operand type for abs"))
  else
    (σ, .ok .vNone)

def applyCallable (fv : Val) (args : List Val) (σ : EState) :
    EState × Except Err Val :=
  match fv with
  | .vBuiltin b => applyBuiltin b args σ
  | .vExcType _ => (σ, .ok .vNone)
  | _ => (σ, .error (.typeErr "object is not callable"))

/-! ## Expression evaluation -/

def evalExpr (g : List (String × Val)) : Expr → EState → EState × Except Err Val
  | .intLit n, σ => (σ, .ok (.vInt n))
  | .strLit s, σ => (σ, .ok (.vStr s))
  | .name x, σ =>
    match lookupName g σ.locals x with
    | some v => (σ, .ok v)
    | none => (σ, .error (.nameErr x))
  | .call0 f, σ =>
    match lookupName g σ.locals f with
    | some fv => applyCallable fv [] σ
    | none => (σ, .error (.nameErr f))
  | .call1 f a, σ =>
    match lookupName g σ.locals f with
    | some fv =>
      match evalExpr g a σ with
      | (σ1, .ok v) => applyCallable fv [v] σ1
      | (σ1, .error e) => (σ1, .error e)
    | none => (σ, .error (.nameErr f))
  | .mkDataFrame cols rows, σ =>
    match lookupName g σ.locals "pd" with
    | some (.vModule "pandas") =>
      if rows.all (fun row => row.length == cols.length) then
        ({ σ with sandStore := σ.sandStore ++ [⟨cols, rows⟩] },
         .ok (.vDFRef (.sand σ.sandStore.length)))
      else (σ, .error (.valErr "arrays must all be same length"))
    | some _ => (σ, .error (.typeErr "pd does not name the pandas module"))
    | none => (σ, .error (.nameErr "pd"))
  | .mkFigure i, σ =>
    match lookupName g σ.locals "px" with
    | some (.vModule "plotly.express") => (σ, .ok (.vFig i))
    | some _ => (σ, .error (.typeErr "px does not name the plotly module"))
    | none => (σ, .error (.nameErr "px"))

/-! ## Statement and line execution -/

/-- In-place `x[c] = vals` on a dataframe: replace the column if it exists,
append it otherwise (pandas item assignment). -/
def dfSetColumn (d : DataFrame) (c : String) (vals : List Int) : DataFrame :=
  match d.columns.findIdx? (fun k => k == c) with
  | some j => ⟨d.columns, (d.rows.zip vals).map (fun rv => rv.1.set j rv.2)⟩
  | none => ⟨d.columns ++ [c], (d.rows.zip vals).map (fun rv => rv.1 ++ [rv.2])⟩

def execStmt (g : List (String × Val)) (s : Stmt) (σ : EState) :
    EState × Option Err :=
  match s with
  | .assign x e =>
    match evalExpr g e σ with
    | (σ1, .ok v) => ({ σ1 with locals := setVar σ1.locals x v }, none)
    | (σ1, .error err) => (σ1, some err)
  | .exprStmt e =>
    match evalExpr g e σ with
    | (σ1, .ok _) => (σ1, none)
    | (σ1, .error err) => (σ1, some err)
  | .setCell x i j v =>
    match lookupName g σ.locals x with
    | none => (σ, some (.nameErr x))
    | some (.vDFRef r) =>
      let d := readRef σ r
      if i < d.rows.length ∧ j < d.columns.length then
        (writeRef σ r ⟨d.columns, d.rows.set i ((d.rows.getD i []).set j v)⟩, none)
      else (σ, some (.idxErr "iat based indexing is out of bounds"))
    | some _ => (σ, some (.typeErr "object does not support cell assignment"))
  | .setColumn x c vals =>
    match lookupName g σ.locals x with
    | none => (σ, some (.nameErr x))
    | some (.vDFRef r) =>
      let d := readRef σ r
      if vals.length = d.rows.length then (writeRef σ r (dfSetColumn d c vals), none)
      else (σ, some (.valErr "Length of values does not match length of index"))
    | some _ => (σ, some (.typeErr "object does not support item assignment"))
  | .raiseStmt msg => (σ, some (.valErr msg))

/-- Execute one line: a blank/comment-only line is no statement. -/
def execLine (g : List (String × Val)) (ln : Line) (σ : EState) :
    EState × Option Err :=
  match ln.stmt with
  | none => (σ, none)
  | some s => execStmt g s σ

/-- `exec` of a sequence of lines: run in order, stop at the first raised
exception, keeping the state (in particular stdout) at the failure point. -/
def execLines (g : List (String × Val)) : List Line → EState → EState × Option Err
  | [], σ => (σ, none)
  | ln :: rest, σ =>
    match execLine g ln σ with
    | (σ1, none) => execLines g rest σ1
    | (σ1, some e) => (σ1, some e)

/-! ## The textual last-line heuristic of `execute_code` -/

/-- The `is_expression` test of `execute_code`, verbatim from the source:
the stripped last line is non-empty, does not start with a control-flow,
definition or import keyword followed by a space, and contains no `=`
character before the first `#`. -/
def isExpressionLine (lastLine : String) : Bool :=
  !lastLine.data.isEmpty &&
  !(["if ", "for ", "while ", "def ", "class ", "import ", "from "].any
      (fun p => startsWithStr p lastLine)) &&
  !((beforeHash lastLine).data.contains '=')

/-- `eval(last_line, safe_globals, local_scope)`: only a line that parses as a
bare expression can be evaluated; anything else raises a SyntaxError. -/
def evalLastLine (g : List (String × Val)) (ln : Line) (σ : EState) :
    EState × Except Err Val :=
  match ln.stmt with
  | some (.exprStmt e) => evalExpr g e σ
  | _ => (σ, .error (.synErr "invalid syntax"))

/-- `print(result)` after evaluating the dangling final expression. -/
def printVal (σ : EState) (v : Val) : EState :=
  { σ with out := σ.out ++ strOfVal σ.callerStore σ.sandStore v ++ "\n" }

/-- `result = eval(last_line, ...); print(result)`: evaluate the dangling
final expression and print its rendering, or propagate the raised exception. -/
def evalTail (g : List (String × Val)) (ln : Line) (σ1 : EState) :
    EState × Option Err :=
  match evalLastLine g ln σ1 with
  | (σ2, .error e) => (σ2, some e)
  | (σ2, .ok v) => (printVal σ2 v, none)

/-- The body of the `try` block of `execute_code`: if the textual heuristic
classifies the last line as an expression and the code has more than one line,
execute all but the last line and then evaluate-and-print the last line;
otherwise execute the whole code. -/
def runProgram (g : List (String × Val)) (code : List Line) (σ0 : EState) :
    EState × Option Err :=
  let lastLine := pyStrip (code.getLastD ⟨"", none⟩).text
  if isExpressionLine lastLine && decide (1 < code.length) then
    match execLines g code.dropLast σ0 with
    | (σ1, some e) => (σ1, some e)
    | (σ1, none) => evalTail g (code.getLastD ⟨"", none⟩) σ1
  else
    execLines g code σ0

/-! ## The artifact collectors -/

mutual

/-- The body of `_collect_figures`'s loop for one value: a figure is
collected, a list/tuple/set is recursed into, a dict is recursed into via its
values (`value.values()`) — never its keys — and anything else contributes
nothing. -/
def figsOfVal : Val → List Nat
  | .vFig f => [f]
  | .vList xs => collectFigures xs
  | .vTuple xs => collectFigures xs
  | .vSet xs => collectFigures xs
  | .vDict _ vs => collectFigures vs
  | _ => []

/-- `_collect_figures`: the loop over the supplied values, `extend`ing the
result list per value. -/
def collectFigures : List Val → List Nat
  | [] => []
  | v :: rest => figsOfVal v ++ collectFigures rest

end

/-- The `is_original` structural test of `_collect_tables`: same shape and
same column-name sequence as the input dataframe (cell values are not
compared). -/
def matchesOriginal (d orig : DataFrame) : Bool :=
  d.shape == orig.shape && d.columns == orig.columns

mutual

/-- The body of `_collect_tables`'s loop for one value: a dataframe passing
the `is_original` test is skipped, any other dataframe is collected, and
containers are recursed into as in `_collect_figures` (dict values only). -/
def tablesOfVal (cs ss : List DataFrame) : Val → DataFrame → List DataFrame
  | .vDFRef r, orig =>
    if matchesOriginal (readDF cs ss r) orig then [] else [readDF cs ss r]
  | .vList xs, orig => collectTables cs ss xs orig
  | .vTuple xs, orig => collectTables cs ss xs orig
  | .vSet xs, orig => collectTables cs ss xs orig
  | .vDict _ vs, orig => collectTables cs ss vs orig
  | _, _ => []

/-- `_collect_tables`: the loop over the supplied values, `extend`ing the
result list per value, excluding the original dataframe structurally. -/
def collectTables (cs ss : List DataFrame) : List Val → DataFrame → List DataFrame
  | [], _ => []
  | v :: rest, orig => tablesOfVal cs ss v orig ++ collectTables cs ss rest orig

end

/-! ## `execute_code` -/

/-- The state at entry of the `try` block: empty `local_scope`, the caller's
heap region untouched, the sandbox region holding exactly `dataframe.copy()`,
and an empty stdout buffer. -/
def initState (st : List DataFrame) (r : Nat) : EState :=
  ⟨[], st, [getDF st r], ""⟩

/-- `list(safe_globals.values()) + list(local_scope.values())`. -/
def allValues (g : List (String × Val)) (σ : EState) : List Val :=
  g.map Prod.snd ++ σ.locals.map Prod.snd

/-- `execute_code(code, dataframe)`.  `st` is the caller's heap region and
`r` the index of the input dataframe in it; the returned heap region is what
the caller's objects look like after the call. -/
def executeCode (code : List Line) (st : List DataFrame) (r : Nat) :
    ExecutionResult × List DataFrame :=
  if pyStrip (codeText code) = "" then
    (⟨[], [], "", some "No code to execute."⟩, st)
  else
    match runProgram safeGlobals code (initState st r) with
    | (σ, some e) => (⟨[], [], σ.out, some (formatErr e)⟩, σ.callerStore)
    | (σ, none) =>
      let vals := allValues safeGlobals σ
      (⟨collectFigures vals,
        collectTables σ.callerStore σ.sandStore vals (getDF σ.callerStore r),
        pyStrip σ.out,
        none⟩, σ.callerStore)

/-! ## Reachability invariant: the sandbox only ever holds sandbox references

`safe_globals` hands the code a reference to the private copy (`Ref.sand 0`)
and no caller reference; every value the code can build likewise only holds
sandbox references.  Consequently every heap write targets the sandbox region
and the caller's objects — in particular the input dataset — are left intact. -/

mutual

/-- All dataframe references inside a value point into the sandbox region. -/
def valSand : Val → Bool
  | .vDFRef (.caller _) => false
  | .vDFRef (.sand _) => true
  | .vList xs => valsSand xs
  | .vTuple xs => valsSand xs
  | .vSet xs => valsSand xs
  | .vDict ks vs => valsSand ks && valsSand vs
  | _ => true

def valsSand : List Val → Bool
  | [] => true
  | v :: vs => valSand v && valsSand vs

end

def envSand : List (String × Val) → Bool
  | [] => true
  | p :: rest => valSand p.2 && envSand rest

theorem valsSand_map_vStr (ns : List String) : valsSand (ns.map .vStr) = true := by
  induction ns with
  | nil => rfl
  | cons n ns ih => simp [valsSand, valSand, ih]

theorem valsSand_map_builtinVal (ns : List String) :
    valsSand (ns.map builtinVal) = true := by
  induction ns with
  | nil => rfl
  | cons n ns ih =>
    simp only [List.map_cons, valsSand, ih, Bool.and_true]
    unfold builtinVal
    split <;> rfl

theorem valSand_safeBuiltinsVal : valSand safeBuiltinsVal = true := by
  unfold safeBuiltinsVal
  simp [valSand, valsSand_map_vStr, valsSand_map_builtinVal]

theorem envSand_safeGlobals : envSand safeGlobals = true := by
  simp only [safeGlobals, envSand, Bool.and_eq_true]
  exact ⟨valSand_safeBuiltinsVal, by simp [envSand, valSand]⟩

theorem lookupAssoc_sand {l : List (String × Val)} (hl : envSand l = true)
    {x : String} {v : Val} (h : lookupAssoc l x = some v) : valSand v = true := by
  induction l with
  | nil => simp [lookupAssoc] at h
  | cons p rest ih =>
    simp only [envSand, Bool.and_eq_true] at hl
    simp [lookupAssoc] at h
    split at h
    · cases h; exact hl.1
    · exact ih hl.2 h

theorem dictLookupStr_sand {ks vs : List Val} (hv : valsSand vs = true)
    {x : String} {v : Val} (h : dictLookupStr ks vs x = some v) :
    valSand v = true := by
  induction ks generalizing vs with
  | nil => simp [dictLookupStr] at h
  | cons k ks ih =>
    cases vs with
    | nil => cases k <;> simp [dictLookupStr] at h
    | cons w vs =>
      simp [valsSand, Bool.and_eq_true] at hv
      cases k with
      | vStr s =>
        simp [dictLookupStr] at h
        split at h
        · cases h; exact hv.1
        · exact ih hv.2 h
      | vNone => exact ih hv.2 (by simpa [dictLookupStr] using h)
      | vInt n => exact ih hv.2 (by simpa [dictLookupStr] using h)
      | vDFRef r => exact ih hv.2 (by simpa [dictLookupStr] using h)
      | vFig i => exact ih hv.2 (by simpa [dictLookupStr] using h)
      | vModule m => exact ih hv.2 (by simpa [dictLookupStr] using h)
      | vBuiltin f => exact ih hv.2 (by simpa [dictLookupStr] using h)
      | vExcType e => exact ih hv.2 (by simpa [dictLookupStr] using h)
      | vList xs => exact ih hv.2 (by simpa [dictLookupStr] using h)
      | vTuple xs => exact ih hv.2 (by simpa [dictLookupStr] using h)
      | vSet xs => exact ih hv.2 (by simpa [dictLookupStr] using h)
      | vDict a b => exact ih hv.2 (by simpa [dictLookupStr] using h)

theorem lookupName_sand {g l : List (String × Val)} (hg : envSand g = true)
    (hl : envSand l = true) {x : String} {v : Val}
    (h : lookupName g l x = some v) : valSand v = true := by
  unfold lookupName at h
  cases hcl : lookupAssoc l x with
  | some w => rw [hcl] at h; cases h; exact lookupAssoc_sand hl hcl
  | none =>
    rw [hcl] at h
    cases hcg : lookupAssoc g x with
    | some w => rw [hcg] at h; cases h; exact lookupAssoc_sand hg hcg
    | none =>
      rw [hcg] at h
      cases hcb : lookupAssoc g "__builtins__" with
      | none => rw [hcb] at h; cases h
      | some b =>
        rw [hcb] at h
        have hb : valSand b = true := lookupAssoc_sand hg hcb
        cases b <;> simp_all
        case vDict ks vs =>
          simp [valSand, Bool.and_eq_true] at hb
          exact dictLookupStr_sand hb.2 h

theorem setVar_envSand {l : List (String × Val)} (hl : envSand l = true)
    {x : String} {v : Val} (hv : valSand v = true) :
    envSand (setVar l x v) = true := by
  induction l with
  | nil => simp [setVar, envSand, hv]
  | cons p rest ih =>
    simp only [envSand, Bool.and_eq_true] at hl
    simp only [setVar]
    split
    · simp [envSand, hv, hl.2]
    · simp [envSand, hl.1, ih hl.2]

theorem applyBuiltin_frame (b : String) (args : List Val) (σ : EState) :
    (applyBuiltin b args σ).1.callerStore = σ.callerStore ∧
    (applyBuiltin b args σ).1.locals = σ.locals ∧
    ∀ v, (applyBuiltin b args σ).2 = .ok v → valSand v = true := by
  unfold applyBuiltin
  split_ifs
  · exact ⟨rfl, rfl, fun v hv => by cases hv; simp [valSand]⟩
  · split
    · rename_i a
      cases h : lenOfVal σ a with
      | ok n => simp [h, valSand]
      | error e => simp [h]
    · simp
  · split
    · simp [valSand]
    · simp
  · split
    · simp [valSand]
    · simp
  · exact ⟨rfl, rfl, fun v hv => by cases hv; simp [valSand]⟩

theorem applyCallable_frame (fv : Val) (args : List Val) (σ : EState) :
    (applyCallable fv args σ).1.callerStore = σ.callerStore ∧
    (applyCallable fv args σ).1.locals = σ.locals ∧
    ∀ v, (applyCallable fv args σ).2 = .ok v → valSand v = true := by
  unfold applyCallable
  cases fv <;>
    first
      | exact applyBuiltin_frame _ args σ
      | exact ⟨rfl, rfl, fun v hv => by cases hv; simp [valSand]⟩
      | exact ⟨rfl, rfl, fun v hv => by cases hv⟩

/-- Expressions never touch the caller's heap region nor the local scope, and
can only produce values whose references point into the sandbox region. -/
theorem evalExpr_frame (g : List (String × Val)) (e : Expr)
    (hg : envSand g = true) :
    ∀ σ : EState, envSand σ.locals = true →
      (evalExpr g e σ).1.callerStore = σ.callerStore ∧
      (evalExpr g e σ).1.locals = σ.locals ∧
      ∀ v, (evalExpr g e σ).2 = .ok v → valSand v = true := by
  induction e with
  | intLit n =>
    exact fun σ hσ => ⟨rfl, rfl, fun v hv => by cases hv; simp [valSand]⟩
  | strLit s =>
    exact fun σ hσ => ⟨rfl, rfl, fun v hv => by cases hv; simp [valSand]⟩
  | name x =>
    intro σ hσ
    simp only [evalExpr]
    split
    · rename_i v h
      exact ⟨rfl, rfl, fun w hw => by cases hw; exact lookupName_sand hg hσ h⟩
    · exact ⟨rfl, rfl, fun v hv => by cases hv⟩
  | call0 f =>
    intro σ hσ
    simp only [evalExpr]
    split
    · exact applyCallable_frame _ [] σ
    · exact ⟨rfl, rfl, fun v hv => by cases hv⟩
  | call1 f a ih =>
    intro σ hσ
    simp only [evalExpr]
    split
    · rename_i fv hf
      split
      · rename_i σ1 v he
        obtain ⟨h1, h2, h3⟩ := ih σ hσ
        rw [he] at h1 h2 h3
        have hc := applyCallable_frame fv [v] σ1
        exact ⟨hc.1.trans h1, hc.2.1.trans h2, hc.2.2⟩
      · rename_i σ1 err he
        obtain ⟨h1, h2, _⟩ := ih σ hσ
        rw [he] at h1 h2
        exact ⟨h1, h2, fun v hv => by cases hv⟩
    · exact ⟨rfl, rfl, fun v hv => by cases hv⟩
  | mkDataFrame cols rows =>
    intro σ hσ
    simp only [evalExpr]
    split
    · split
      · exact ⟨rfl, rfl, fun v hv => by cases hv; simp [valSand]⟩
      · exact ⟨rfl, rfl, fun v hv => by cases hv⟩
    · exact ⟨rfl, rfl, fun v hv => by cases hv⟩
    · exact ⟨rfl, rfl, fun v hv => by cases hv⟩
  | mkFigure i =>
    intro σ hσ
    simp only [evalExpr]
    split
    · exact ⟨rfl, rfl, fun v hv => by cases hv; simp [valSand]⟩
    · exact ⟨rfl, rfl, fun v hv => by cases hv⟩
    · exact ⟨rfl, rfl, fun v hv => by cases hv⟩

/-- Statements never touch the caller's heap region: every heap write goes
through a name whose value, by `lookupName_sand`, holds a sandbox reference. -/
theorem execStmt_frame (g : List (String × Val)) (s : Stmt)
    (hg : envSand g = true) (σ : EState) (hσ : envSand σ.locals = true) :
    (execStmt g s σ).1.callerStore = σ.callerStore ∧
    envSand (execStmt g s σ).1.locals = true := by
  cases s with
  | assign x e =>
    simp only [execStmt]
    split
    · rename_i σ1 v he
      obtain ⟨h1, h2, h3⟩ := evalExpr_frame g e hg σ hσ
      rw [he] at h1 h2 h3
      refine ⟨h1, ?_⟩
      show envSand (setVar σ1.locals x v) = true
      rw [show σ1.locals = σ.locals from h2]
      exact setVar_envSand hσ (h3 v rfl)
    · rename_i σ1 err he
      obtain ⟨h1, h2, _⟩ := evalExpr_frame g e hg σ hσ
      rw [he] at h1 h2
      exact ⟨h1, by rw [show σ1.locals = σ.locals from h2]; exact hσ⟩
  | exprStmt e =>
    simp only [execStmt]
    split
    · rename_i σ1 v he
      obtain ⟨h1, h2, _⟩ := evalExpr_frame g e hg σ hσ
      rw [he] at h1 h2
      exact ⟨h1, by rw [show σ1.locals = σ.locals from h2]; exact hσ⟩
    · rename_i σ1 err he
      obtain ⟨h1, h2, _⟩ := evalExpr_frame g e hg σ hσ
      rw [he] at h1 h2
      exact ⟨h1, by rw [show σ1.locals = σ.locals from h2]; exact hσ⟩
  | setCell x i j v =>
    simp only [execStmt]
    split
    · exact ⟨rfl, hσ⟩
    · rename_i r hl
      have hs := lookupName_sand hg hσ hl
      cases r with
      | caller i2 => simp [valSand] at hs
      | sand i2 =>
        split
        · exact ⟨rfl, hσ⟩
        · exact ⟨rfl, hσ⟩
    · exact ⟨rfl, hσ⟩
  | setColumn x c vals =>
    simp only [execStmt]
    split
    · exact ⟨rfl, hσ⟩
    · rename_i r hl
      have hs := lookupName_sand hg hσ hl
      cases r with
      | caller i2 => simp [valSand] at hs
      | sand i2 =>
        split
        · exact ⟨rfl, hσ⟩
        · exact ⟨rfl, hσ⟩
    · exact ⟨rfl, hσ⟩
  | raiseStmt msg => exact ⟨rfl, hσ⟩

theorem execLine_frame (g : List (String × Val)) (ln : Line)
    (hg : envSand g = true) (σ : EState) (hσ : envSand σ.locals = true) :
    (execLine g ln σ).1.callerStore = σ.callerStore ∧
    envSand (execLine g ln σ).1.locals = true := by
  simp only [execLine]
  split
  · exact ⟨rfl, hσ⟩
  · rename_i s hs
    exact execStmt_frame g s hg σ hσ

theorem execLines_frame (g : List (String × Val)) (hg : envSand g = true) :
    ∀ (lines : List Line) (σ : EState), envSand σ.locals = true →
      (execLines g lines σ).1.callerStore = σ.callerStore ∧
      envSand (execLines g lines σ).1.locals = true := by
  intro lines
  induction lines with
  | nil => exact fun σ hσ => ⟨rfl, hσ⟩
  | cons ln rest ih =>
    intro σ hσ
    simp only [execLines]
    have hfl := execLine_frame g ln hg σ hσ
    cases he : execLine g ln σ with
    | mk σ1 err =>
      rw [he] at hfl
      cases err with
      | none =>
        have hr := ih σ1 hfl.2
        exact ⟨hr.1.trans hfl.1, hr.2⟩
      | some e => exact hfl

theorem evalLastLine_frame (g : List (String × Val)) (ln : Line)
    (hg : envSand g = true) (σ : EState) (hσ : envSand σ.locals = true) :
    (evalLastLine g ln σ).1.callerStore = σ.callerStore ∧
    (evalLastLine g ln σ).1.locals = σ.locals := by
  simp only [evalLastLine]
  split
  · rename_i e hs
    have h := evalExpr_frame g e hg σ hσ
    exact ⟨h.1, h.2.1⟩
  · exact ⟨rfl, rfl⟩

theorem evalTail_frame (g : List (String × Val)) (ln : Line)
    (hg : envSand g = true) (σ1 : EState) (hσ : envSand σ1.locals = true) :
    (evalTail g ln σ1).1.callerStore = σ1.callerStore ∧
    envSand (evalTail g ln σ1).1.locals = true := by
  unfold evalTail
  have h2 := evalLastLine_frame g ln hg σ1 hσ
  cases he2 : evalLastLine g ln σ1 with
  | mk σ2 res =>
    rw [he2] at h2
    cases res with
    | error e =>
      exact ⟨h2.1, by rw [show σ2.locals = σ1.locals from h2.2]; exact hσ⟩
    | ok v =>
      refine ⟨h2.1, ?_⟩
      show envSand (printVal σ2 v).locals = true
      rw [show (printVal σ2 v).locals = σ1.locals from h2.2]
      exact hσ

theorem runProgram_frame (g : List (String × Val)) (hg : envSand g = true)
    (code : List Line) (σ0 : EState) (hσ : envSand σ0.locals = true) :
    (runProgram g code σ0).1.callerStore = σ0.callerStore ∧
    envSand (runProgram g code σ0).1.locals = true := by
  simp only [runProgram]
  split
  · split
    · rename_i σ1 e he
      have h1 := execLines_frame g hg code.dropLast σ0 hσ
      rw [he] at h1
      exact h1
    · rename_i σ1 he
      have h1 := execLines_frame g hg code.dropLast σ0 hσ
      rw [he] at h1
      have h2 := evalTail_frame g (code.getLastD ⟨"", none⟩) hg σ1 h1.2
      exact ⟨h2.1.trans h1.1, h2.2⟩
  · exact execLines_frame g hg code σ0 hσ

/-- The caller's heap region is returned exactly as it was received: no
sandboxed execution can mutate any pre-existing object, the input dataset
included. -/
theorem executeCode_callerStore (code : List Line) (st : List DataFrame) (r : Nat) :
    (executeCode code st r).2 = st := by
  unfold executeCode
  split
  · rfl
  · have h := runProgram_frame safeGlobals envSand_safeGlobals code (initState st r) rfl
    cases he : runProgram safeGlobals code (initState st r) with
    | mk σ err =>
      rw [he] at h
      cases err with
      | none => exact h.1
      | some e => exact h.1
/-! ## Collector lemmas -/

theorem collectFigures_cons (v : Val) (rest : List Val) :
    collectFigures (v :: rest) = figsOfVal v ++ collectFigures rest := by
  simp [collectFigures]

theorem collectFigures_append (a b : List Val) :
    collectFigures (a ++ b) = collectFigures a ++ collectFigures b := by
  induction a with
  | nil => simp [collectFigures]
  | cons v rest ih => simp [collectFigures, ih]

theorem figsOfVal_sub {v : Val} {vals : List Val} (hv : v ∈ vals)
    {f : Nat} (hf : f ∈ figsOfVal v) : f ∈ collectFigures vals := by
  obtain ⟨s, t, rfl⟩ := List.append_of_mem hv
  rw [collectFigures_append, collectFigures_cons]
  simp only [List.mem_append]
  exact Or.inr (Or.inl hf)

theorem collectTables_cons (cs ss : List DataFrame) (v : Val) (rest : List Val)
    (orig : DataFrame) :
    collectTables cs ss (v :: rest) orig =
      tablesOfVal cs ss v orig ++ collectTables cs ss rest orig := by
  simp [collectTables]

theorem collectTables_append (cs ss : List DataFrame) (a b : List Val)
    (orig : DataFrame) :
    collectTables cs ss (a ++ b) orig =
      collectTables cs ss a orig ++ collectTables cs ss b orig := by
  induction a with
  | nil => simp [collectTables]
  | cons v rest ih => simp [collectTables, ih]

theorem tablesOfVal_sub {v : Val} {vals : List Val} (hv : v ∈ vals)
    (cs ss : List DataFrame) {orig : DataFrame} {d : DataFrame}
    (hd : d ∈ tablesOfVal cs ss v orig) : d ∈ collectTables cs ss vals orig := by
  obtain ⟨s, t, rfl⟩ := List.append_of_mem hv
  rw [collectTables_append, collectTables_cons]
  simp only [List.mem_append]
  exact Or.inr (Or.inl hd)

/-- Every table the collector returns fails the structural `is_original` test:
a dataframe whose shape and column names match the input is excluded wherever
it occurs, whatever its cell values. -/
theorem collectTables_not_matching (cs ss : List DataFrame) (vals : List Val)
    (orig : DataFrame) :
    ∀ d ∈ collectTables cs ss vals orig, matchesOriginal d orig = false := by
  refine collectTables.induct cs ss
    (fun v orig => ∀ d ∈ tablesOfVal cs ss v orig, matchesOriginal d orig = false)
    (fun vals orig => ∀ d ∈ collectTables cs ss vals orig,
      matchesOriginal d orig = false)
    ?_ ?_ ?_ ?_ ?_ ?_ ?_ ?_ ?_ vals orig
  · intro r orig hmo d hd
    simp [tablesOfVal, hmo] at hd
  · intro r orig hmo d hd
    simp only [Bool.not_eq_true] at hmo
    simp [tablesOfVal, hmo] at hd
    rw [hd]
    exact hmo
  · intro xs orig ih d hd
    exact ih d (by simpa [tablesOfVal] using hd)
  · intro xs orig ih d hd
    exact ih d (by simpa [tablesOfVal] using hd)
  · intro xs orig ih d hd
    exact ih d (by simpa [tablesOfVal] using hd)
  · intro ks vs orig ih d hd
    exact ih d (by simpa [tablesOfVal] using hd)
  · intro t x h1 h2 h3 h4 h5 d hd
    cases t with
    | vDFRef r => exact (h1 r rfl).elim
    | vList xs => exact (h2 xs rfl).elim
    | vTuple xs => exact (h3 xs rfl).elim
    | vSet xs => exact (h4 xs rfl).elim
    | vDict ks vs => exact (h5 ks vs rfl).elim
    | vNone => simp [tablesOfVal] at hd
    | vInt n => simp [tablesOfVal] at hd
    | vStr s => simp [tablesOfVal] at hd
    | vFig i => simp [tablesOfVal] at hd
    | vModule m => simp [tablesOfVal] at hd
    | vBuiltin f => simp [tablesOfVal] at hd
    | vExcType e => simp [tablesOfVal] at hd
  · intro x d hd
    simp [collectTables] at hd
  · intro v rest orig ih1 ih2 d hd
    rw [collectTables_cons] at hd
    rcases List.mem_append.mp hd with h | h
    · exact ih1 d h
    · exact ih2 d h

/-- A non-matching dataframe reference listed directly among the values is
collected. -/
theorem collectTables_mem_of_ref {vals : List Val} {r : Ref}
    (hv : Val.vDFRef r ∈ vals) (cs ss : List DataFrame) {orig : DataFrame}
    (hm : matchesOriginal (readDF cs ss r) orig = false) :
    readDF cs ss r ∈ collectTables cs ss vals orig := by
  refine tablesOfVal_sub hv cs ss ?_
  simp [tablesOfVal, hm]

/-! ## Reachability through containers (for the discovery claim)

`Occurs t v` says the value `t` sits somewhere inside `v`, reachable through
list/tuple/set elements and dict *values* — exactly the edges the collectors
follow. -/

inductive Occurs (t : Val) : Val → Prop where
  | refl : Occurs t t
  | inList {v : Val} {xs : List Val} : Occurs t v → v ∈ xs → Occurs t (.vList xs)
  | inTuple {v : Val} {xs : List Val} : Occurs t v → v ∈ xs → Occurs t (.vTuple xs)
  | inSet {v : Val} {xs : List Val} : Occurs t v → v ∈ xs → Occurs t (.vSet xs)
  | inDictVal {v : Val} {ks vs : List Val} : Occurs t v → v ∈ vs → Occurs t (.vDict ks vs)

theorem occurs_fig_collect {fid : Nat} {v : Val} (h : Occurs (.vFig fid) v) :
    fid ∈ figsOfVal v := by
  induction h with
  | refl => simp [figsOfVal]
  | inList hocc hmem ih =>
    simp only [figsOfVal]
    exact figsOfVal_sub hmem ih
  | inTuple hocc hmem ih =>
    simp only [figsOfVal]
    exact figsOfVal_sub hmem ih
  | inSet hocc hmem ih =>
    simp only [figsOfVal]
    exact figsOfVal_sub hmem ih
  | inDictVal hocc hmem ih =>
    simp only [figsOfVal]
    exact figsOfVal_sub hmem ih

theorem occurs_table_collect {r : Ref} {v : Val} (h : Occurs (.vDFRef r) v)
    (cs ss : List DataFrame) {orig : DataFrame}
    (hm : matchesOriginal (readDF cs ss r) orig = false) :
    readDF cs ss r ∈ tablesOfVal cs ss v orig := by
  induction h with
  | refl => simp [tablesOfVal, hm]
  | inList hocc hmem ih =>
    simp only [tablesOfVal]
    exact tablesOfVal_sub hmem cs ss ih
  | inTuple hocc hmem ih =>
    simp only [tablesOfVal]
    exact tablesOfVal_sub hmem cs ss ih
  | inSet hocc hmem ih =>
    simp only [tablesOfVal]
    exact tablesOfVal_sub hmem cs ss ih
  | inDictVal hocc hmem ih =>
    simp only [tablesOfVal]
    exact tablesOfVal_sub hmem cs ss ih

/-! ## Program-composition and name-resolution helpers -/

theorem execLines_append_ok {g : List (String × Val)} {a : List Line}
    {σ σ1 : EState} (h : execLines g a σ = (σ1, none)) (b : List Line) :
    execLines g (a ++ b) σ = execLines g b σ1 := by
  induction a generalizing σ with
  | nil =>
    simp only [execLines] at h
    cases h
    rfl
  | cons ln rest ih =>
    simp only [execLines] at h ⊢
    cases he : execLine g ln σ with
    | mk σ2 err =>
      rw [he] at h
      cases err with
      | none => exact ih h
      | some e => cases h

theorem execLines_append_err {g : List (String × Val)} {a : List Line}
    {σ σ1 : EState} {e : Err} (h : execLines g a σ = (σ1, some e)) (b : List Line) :
    execLines g (a ++ b) σ = (σ1, some e) := by
  induction a generalizing σ with
  | nil => simp only [execLines] at h; cases h
  | cons ln rest ih =>
    simp only [execLines] at h ⊢
    cases he : execLine g ln σ with
    | mk σ2 err =>
      rw [he] at h
      cases err with
      | none => exact ih h
      | some e2 => exact h

theorem lookupAssoc_eq_none {l : List (String × Val)} {x : String}
    (h : x ∉ l.map Prod.fst) : lookupAssoc l x = none := by
  induction l with
  | nil => rfl
  | cons p rest ih =>
    obtain ⟨k, v⟩ := p
    simp only [List.map_cons, List.mem_cons] at h
    push_neg at h
    simp only [lookupAssoc]
    rw [if_neg (fun hh => h.1 hh.symm)]
    exact ih h.2

theorem dictLookupStr_map_eq_none (f : String → Val) (x : String) :
    ∀ ns : List String, x ∉ ns → dictLookupStr (ns.map .vStr) (ns.map f) x = none := by
  intro ns
  induction ns with
  | nil => intro _; rfl
  | cons m ms ih =>
    intro h
    simp only [List.mem_cons] at h
    push_neg at h
    simp only [List.map_cons, dictLookupStr]
    rw [if_neg (fun hh => h.1 hh.symm)]
    exact ih h.2

/-- The allow-list exactly as claim C1 words it: the `SAFE_BUILTINS` names
plus the injected globals `pd`/`np`/`px`/`go`/`df` and the three exception
names. -/
def claimAllowList : List String :=
  safeBuiltinNames ++ ["pd", "np", "px", "go", "df", "ValueError", "KeyError", "TypeError"]

/-- The corrected allow-list: `safe_globals` also exposes the restricted
builtins mapping itself under the name `__builtins__`. -/
def amendedAllowList : List String := claimAllowList ++ ["__builtins__"]

theorem lookupName_eq_none {l : List (String × Val)} {n : String}
    (halw : n ∉ amendedAllowList) (hl : n ∉ l.map Prod.fst) :
    lookupName safeGlobals l n = none := by
  have hglob : n ∉ safeGlobals.map Prod.fst := by
    intro hmem
    apply halw
    simp only [safeGlobals, List.map_cons, List.map_nil, List.mem_cons,
      List.not_mem_nil, or_false] at hmem
    simp only [amendedAllowList, claimAllowList, safeBuiltinNames,
      List.append_assoc, List.mem_append, List.mem_cons, List.not_mem_nil]
    rcases hmem with h | h | h | h | h | h | h | h | h <;> simp [h]
  have hnb : n ∉ safeBuiltinNames := by
    intro hmem
    apply halw
    unfold amendedAllowList claimAllowList
    exact List.mem_append_left _ (List.mem_append_left _ hmem)
  unfold lookupName
  rw [lookupAssoc_eq_none hl, lookupAssoc_eq_none hglob]
  rw [show lookupAssoc safeGlobals "__builtins__" = some safeBuiltinsVal from rfl]
  rw [show safeBuiltinsVal =
        Val.vDict (safeBuiltinNames.map .vStr) (safeBuiltinNames.map builtinVal)
      from rfl]
  exact dictLookupStr_map_eq_none builtinVal n safeBuiltinNames hnb

theorem executeCode_of_run_err {code : List Line} {st : List DataFrame} {r : Nat}
    {σ : EState} {e : Err} (hnb : pyStrip (codeText code) ≠ "")
    (hrun : runProgram safeGlobals code (initState st r) = (σ, some e)) :
    executeCode code st r = (⟨[], [], σ.out, some (formatErr e)⟩, σ.callerStore) := by
  unfold executeCode
  rw [if_neg hnb, hrun]

theorem executeCode_of_run_ok {code : List Line} {st : List DataFrame} {r : Nat}
    {σ : EState} (hnb : pyStrip (codeText code) ≠ "")
    (hrun : runProgram safeGlobals code (initState st r) = (σ, none)) :
    executeCode code st r =
      (⟨collectFigures (allValues safeGlobals σ),
        collectTables σ.callerStore σ.sandStore (allValues safeGlobals σ)
          (getDF σ.callerStore r),
        pyStrip σ.out, none⟩, σ.callerStore) := by
  unfold executeCode
  rw [if_neg hnb, hrun]

theorem runProgram_not_expr {g : List (String × Val)} {code : List Line}
    (σ0 : EState)
    (h : (isExpressionLine (pyStrip (code.getLastD ⟨"", none⟩).text) &&
          decide (1 < code.length)) = false) :
    runProgram g code σ0 = execLines g code σ0 := by
  simp only [runProgram]
  rw [if_neg (fun hc => Bool.false_ne_true (h.symm.trans hc))]

theorem runProgram_expr_ok {g : List (String × Val)} {code : List Line}
    {σ0 σ1 : EState}
    (h : (isExpressionLine (pyStrip (code.getLastD ⟨"", none⟩).text) &&
          decide (1 < code.length)) = true)
    (hpre : execLines g code.dropLast σ0 = (σ1, none)) :
    runProgram g code σ0 = evalTail g (code.getLastD ⟨"", none⟩) σ1 := by
  simp only [runProgram]
  rw [if_pos h, hpre]

theorem runProgram_expr_err {g : List (String × Val)} {code : List Line}
    {σ0 σ1 : EState} {e : Err}
    (h : (isExpressionLine (pyStrip (code.getLastD ⟨"", none⟩).text) &&
          decide (1 < code.length)) = true)
    (hpre : execLines g code.dropLast σ0 = (σ1, some e)) :
    runProgram g code σ0 = (σ1, some e) := by
  simp only [runProgram]
  rw [if_pos h, hpre]

theorem evalTail_ok {g : List (String × Val)} {ln : Line} {σ1 σ2 : EState}
    {v : Val} (he : evalLastLine g ln σ1 = (σ2, .ok v)) :
    evalTail g ln σ1 = (printVal σ2 v, none) := by
  unfold evalTail
  rw [he]

theorem evalTail_err {g : List (String × Val)} {ln : Line} {σ1 σ2 : EState}
    {e : Err} (he : evalLastLine g ln σ1 = (σ2, .error e)) :
    evalTail g ln σ1 = (σ2, some e) := by
  unfold evalTail
  rw [he]

/-! ## Claim C1 — references outside the allow-list -/

/-- A one-row, one-column sample dataset used by the concrete witnesses. -/
def sampleDF : DataFrame := ⟨["a"], [[1]]⟩

/-- The single-line program `__builtins__`: a bare reference to a name the
claim's allow-list does not contain. -/
def c1CexCode : List Line :=
  [⟨"__builtins__", some (.exprStmt (.name "__builtins__"))⟩]

/-- Claim C1 is false as stated: the program `__builtins__` references a name
that is neither in `SAFE_BUILTINS` nor one of the eight injected globals the
claim enumerates, yet `execute` succeeds with no error — `safe_globals`
also binds the restricted builtins mapping itself under the key
`__builtins__`, so the lookup resolves instead of failing. -/
theorem c1_counterexample :
    "__builtins__" ∉ claimAllowList ∧
    (executeCode c1CexCode [sampleDF] 0).1.error = none := by
  constructor
  · decide
  · rfl

/-- C1 (amended: the allow-list additionally contains `__builtins__`, under
which the capability mapping itself is injected).  A reference to a name
outside the amended allow-list that the code has not bound resolves to a
`NameError`; when such a reference is reached, `execute` returns an
`ExecutionResult` carrying the name-resolution error report with no artifacts
collected, and the caller's heap region — in particular the input dataset —
is returned unchanged, so the failed execution has no observable side effect
outside the sandbox. -/
theorem c1_unlisted_name_fails (n : String) (hn : n ∉ amendedAllowList) :
    (∀ σ : EState, n ∉ σ.locals.map Prod.fst →
      evalExpr safeGlobals (.name n) σ = (σ, .error (.nameErr n)))
    ∧ (∀ (pre : List Line) (t : String) (st : List DataFrame) (r : Nat)
        (σ1 : EState),
        pyStrip (codeText (pre ++ [⟨t, some (.exprStmt (.name n))⟩])) ≠ "" →
        execLines safeGlobals pre (initState st r) = (σ1, none) →
        n ∉ σ1.locals.map Prod.fst →
        executeCode (pre ++ [⟨t, some (.exprStmt (.name n))⟩]) st r =
          ((⟨[], [], σ1.out, some (formatErr (.nameErr n))⟩ : ExecutionResult), st)) := by
  have heval : ∀ σ : EState, n ∉ σ.locals.map Prod.fst →
      evalExpr safeGlobals (.name n) σ = (σ, .error (.nameErr n)) := by
    intro σ hσ
    simp only [evalExpr]
    rw [lookupName_eq_none hn hσ]
  refine ⟨heval, ?_⟩
  intro pre t st r σ1 hnb hpre hloc
  have hfr := execLines_frame safeGlobals envSand_safeGlobals pre (initState st r) rfl
  rw [hpre] at hfr
  have hrun : runProgram safeGlobals (pre ++ [⟨t, some (.exprStmt (.name n))⟩])
      (initState st r) = (σ1, some (.nameErr n)) := by
    cases hb : isExpressionLine
        (pyStrip ((pre ++ [(⟨t, some (.exprStmt (.name n))⟩ : Line)]).getLastD
          (⟨"", none⟩ : Line)).text) &&
        decide (1 < (pre ++ [(⟨t, some (.exprStmt (.name n))⟩ : Line)]).length) with
    | true =>
      rw [runProgram_expr_ok hb (by rw [List.dropLast_concat]; exact hpre)]
      rw [List.getLastD_concat]
      exact evalTail_err (by simp only [evalLastLine]; exact heval σ1 hloc)
    | false =>
      rw [runProgram_not_expr _ hb]
      rw [execLines_append_ok hpre]
      simp only [execLines, execLine, execStmt]
      rw [heval σ1 hloc]
  rw [executeCode_of_run_err hnb hrun]
  rw [show σ1.callerStore = (initState st r).callerStore from hfr.1]
  rfl

/-- The single-line program `open`: `open` is outside even the amended
allow-list. -/
def c1WitnessCode : List Line := [⟨"open", some (.exprStmt (.name "open"))⟩]

/-- Witness for `c1_unlisted_name_fails` at the concrete name `open`: the
attempted file-access capability fails with a `NameError` report and leaves
the caller's heap unchanged. -/
theorem c1_witness :
    "open" ∉ amendedAllowList ∧
    executeCode c1WitnessCode [sampleDF] 0 =
      ((⟨[], [], "", some (formatErr (.nameErr "open"))⟩ : ExecutionResult),
        [sampleDF]) := by
  refine ⟨by decide, ?_⟩
  exact (c1_unlisted_name_fails "open" (by decide)).2
    [] "open" [sampleDF] 0 (initState [sampleDF] 0) (by decide) rfl (by decide)

/-! ## Claim C2 — exceptions are recovered at the `execute` boundary -/

/-- C2: `execute` is the single recovery boundary.  (i) Whenever the result
carries an error, the figure and table lists are empty.  (ii) Whenever the
`try`-block body raises, the result is exactly: no artifacts, the stdout
captured up to the failure point (unstripped), and the formatted bounded
trace — the exception itself never escapes, a returned value is produced
instead.  (iii) An exception at one line stops execution there: the lines
after it never run, and the captured output is exactly that of the prefix
executed before the failure. -/
theorem c2_exceptions_recovered (code : List Line) (st : List DataFrame) (r : Nat) :
    ((executeCode code st r).1.error.isSome →
      (executeCode code st r).1.figures = [] ∧ (executeCode code st r).1.tables = [])
    ∧ (∀ (σ : EState) (e : Err), pyStrip (codeText code) ≠ "" →
        runProgram safeGlobals code (initState st r) = (σ, some e) →
        (executeCode code st r).1 =
          (⟨[], [], σ.out, some (formatErr e)⟩ : ExecutionResult))
    ∧ (∀ (pre : List Line) (ln : Line) (rest : List Line) (σ1 σ2 : EState) (e : Err),
        execLines safeGlobals pre (initState st r) = (σ1, none) →
        execLine safeGlobals ln σ1 = (σ2, some e) →
        execLines safeGlobals (pre ++ ln :: rest) (initState st r) = (σ2, some e)) := by
  refine ⟨?_, ?_, ?_⟩
  · intro herr
    by_cases hb : pyStrip (codeText code) = ""
    · unfold executeCode
      rw [if_pos hb]
      exact ⟨rfl, rfl⟩
    · cases hrun : runProgram safeGlobals code (initState st r) with
      | mk σ err =>
        cases err with
        | some e =>
          rw [executeCode_of_run_err hb hrun]
          exact ⟨rfl, rfl⟩
        | none =>
          rw [executeCode_of_run_ok hb hrun] at herr
          simp [Option.isSome] at herr
  · intro σ e hb hrun
    rw [executeCode_of_run_err hb hrun]
  · intro pre ln rest σ1 σ2 e hpre hln
    rw [execLines_append_ok hpre]
    simp only [execLines]
    rw [hln]

/-- A program that prints, then raises, then would assign: used to witness the
recovery boundary. -/
def c2WitnessCode : List Line :=
  [⟨"print(1)", some (.exprStmt (.call1 "print" (.intLit 1)))⟩,
   ⟨"raise ValueError(m)", some (.raiseStmt "boom")⟩,
   ⟨"x = 2", some (.assign "x" (.intLit 2))⟩]

/-- Witness for `c2_exceptions_recovered`: the raise at line two yields an
error result with no artifacts and exactly the pre-failure output `1`. -/
theorem c2_witness :
    (executeCode c2WitnessCode [sampleDF] 0).1 =
      (⟨[], [], "1\n", some (formatErr (.valErr "boom"))⟩ : ExecutionResult) := by
  exact (c2_exceptions_recovered c2WitnessCode [sampleDF] 0).2.1
    ⟨[], [sampleDF], [sampleDF], "1\n"⟩ (.valErr "boom") (by decide) rfl

/-! ## Claim C3 — the input dataset is never mutated -/

/-- C3: for every dataset and every code, the caller's heap region — and in
particular the dataset object handed to `execute` — is structurally and
value-wise identical before and after the call: the sandbox works on a
private copy bound as `df` (sandbox object 0) and cannot reach the original. -/
theorem c3_dataset_never_mutated (code : List Line) (st : List DataFrame) (r : Nat) :
    (executeCode code st r).2 = st ∧
    getDF (executeCode code st r).2 r = getDF st r := by
  have h := executeCode_callerStore code st r
  exact ⟨h, by rw [h]⟩

/-! ## Claim C4 — empty or whitespace-only code -/

/-- C4: for code that strips to the empty string, `execute` returns
immediately: the distinguished, stably-worded `No code to execute.` error,
empty figure and table lists, empty stdout, and an untouched heap
(no execution is attempted). -/
theorem c4_empty_code (code : List Line) (st : List DataFrame) (r : Nat)
    (h : pyStrip (codeText code) = "") :
    executeCode code st r =
      ((⟨[], [], "", some "No code to execute."⟩ : ExecutionResult), st) := by
  unfold executeCode
  rw [if_pos h]

/-- Witness for `c4_empty_code` on a two-line whitespace-only input. -/
theorem c4_witness :
    executeCode [(⟨"   ", none⟩ : Line), ⟨"\t", none⟩] [sampleDF] 0 =
      ((⟨[], [], "", some "No code to execute."⟩ : ExecutionResult), [sampleDF]) :=
  c4_empty_code [⟨"   ", none⟩, ⟨"\t", none⟩] [sampleDF] 0 (by decide)

/-! ## Claim C8 — calls are independent and self-contained -/

/-- C8: no state written by one call (including by the sandboxed code it ran)
is observable by any later call: a call returns the caller's world unchanged,
so a second call — any code, any dataset index — produces exactly what it
would have produced had the first call never happened.  `safe_globals` and
the `df` copy are fresh per call by construction. -/
theorem c8_calls_independent (code1 code2 : List Line) (st : List DataFrame)
    (r1 r2 : Nat) :
    executeCode code2 (executeCode code1 st r1).2 r2 = executeCode code2 st r2 := by
  rw [executeCode_callerStore]

/-! ## Claim C9 — a single-line bare expression is not auto-printed -/

/-- C9: a one-line program consisting of a bare expression goes down the
plain-`exec` path (the eval-and-print branch requires more than one line), so
the expression is evaluated as an ordinary statement and its value discarded:
the console output is exactly what the expression itself printed (stripped),
with no appended representation, and the run succeeds. -/
theorem c9_single_line_expression (t : String) (e : Expr) (st : List DataFrame)
    (r : Nat) (σ2 : EState) (v : Val)
    (hnb : pyStrip (codeText [(⟨t, some (.exprStmt e)⟩ : Line)]) ≠ "")
    (he : evalExpr safeGlobals e (initState st r) = (σ2, .ok v)) :
    (executeCode [(⟨t, some (.exprStmt e)⟩ : Line)] st r).1.stdout = pyStrip σ2.out ∧
    (executeCode [(⟨t, some (.exprStmt e)⟩ : Line)] st r).1.error = none := by
  have hrun : runProgram safeGlobals [(⟨t, some (.exprStmt e)⟩ : Line)]
      (initState st r) = (σ2, none) := by
    rw [runProgram_not_expr _ (by simp)]
    simp only [execLines, execLine, execStmt]
    rw [he]
  rw [executeCode_of_run_ok hnb hrun]
  exact ⟨rfl, rfl⟩

/-- Witness for `c9_single_line_expression`: the one-line program `df` prints
nothing — its value is discarded, not echoed. -/
theorem c9_witness :
    (executeCode [(⟨"df", some (.exprStmt (.name "df"))⟩ : Line)] [sampleDF] 0).1.stdout
      = "" ∧
    (executeCode [(⟨"df", some (.exprStmt (.name "df"))⟩ : Line)] [sampleDF] 0).1.error
      = none := by
  have h := c9_single_line_expression "df" (.name "df") [sampleDF] 0
    (initState [sampleDF] 0) (.vDFRef (.sand 0)) (by decide) rfl
  exact ⟨h.1.trans rfl, h.2⟩

/-! ## Claim C5 — structural exclusion of the original dataset -/

/-- C5: the exclusion test of `_collect_tables` is purely structural.  Every
collected table differs from the original in shape or column names; a
dataframe in the bindings whose shape and column names both match the
original is excluded wherever it occurs — its cell values are never compared
— while one that differs in shape or column names is included. -/
theorem c5_structural_exclusion (cs ss : List DataFrame) (vals : List Val)
    (orig : DataFrame) :
    (∀ d ∈ collectTables cs ss vals orig, matchesOriginal d orig = false)
    ∧ (∀ r : Ref, Val.vDFRef r ∈ vals →
        (matchesOriginal (readDF cs ss r) orig = true →
          readDF cs ss r ∉ collectTables cs ss vals orig)
        ∧ (matchesOriginal (readDF cs ss r) orig = false →
          readDF cs ss r ∈ collectTables cs ss vals orig)) := by
  refine ⟨collectTables_not_matching cs ss vals orig, ?_⟩
  intro r hr
  constructor
  · intro hm hmem
    have hne := collectTables_not_matching cs ss vals orig _ hmem
    rw [hne] at hm
    exact Bool.false_ne_true hm
  · intro hm
    exact collectTables_mem_of_ref hr cs ss hm

/-- Witness for `c5_structural_exclusion`: sandbox object 0 has the same
shape and columns as the original but different cell values (9 vs 1) and is
excluded; sandbox object 1 has an extra column and is included. -/
theorem c5_witness :
    DataFrame.mk ["a"] [[9]] ∉
      collectTables [] [⟨["a"], [[9]]⟩, ⟨["a", "b"], [[1, 2]]⟩]
        [.vDFRef (.sand 0), .vDFRef (.sand 1)] sampleDF ∧
    DataFrame.mk ["a", "b"] [[1, 2]] ∈
      collectTables [] [⟨["a"], [[9]]⟩, ⟨["a", "b"], [[1, 2]]⟩]
        [.vDFRef (.sand 0), .vDFRef (.sand 1)] sampleDF := by
  have h := (c5_structural_exclusion [] [⟨["a"], [[9]]⟩, ⟨["a", "b"], [[1, 2]]⟩]
    [.vDFRef (.sand 0), .vDFRef (.sand 1)] sampleDF).2
  exact ⟨(h (.sand 0) (by simp)).1 (by decide), (h (.sand 1) (by simp)).2 (by decide)⟩

/-! ## Claim C6 — the dangling final expression is printed -/

/-- A two-line program whose final line is the bare string-literal expression
`"a=b"` — a bare expression with no assignment whose *text* contains `=`. -/
def c6CexCode : List Line :=
  [⟨"print(0)", some (.exprStmt (.call1 "print" (.intLit 0)))⟩,
   ⟨"\"a=b\"", some (.exprStmt (.strLit "a=b"))⟩]

/-- Is `n` a contiguous sublist of the second list? -/
def listInfix (n : List Char) : List Char → Bool
  | [] => n.isEmpty
  | c :: t => n.isPrefixOf (c :: t) || listInfix n t

/-- `needle in hay` on strings. -/
def containsStr (needle hay : String) : Bool := listInfix needle.data hay.data

/-- Claim C6 is false as stated: `c6CexCode` has more than one line and its
final line is a bare expression with no assignment, yet the expression's
printed representation (`a=b`) does not appear in the console text — the
textual heuristic sees the `=` character inside the string literal,
classifies the line as a non-expression, and the whole code is executed as
plain statements, discarding the value.  The run still succeeds and prints
only `0`. -/
theorem c6_counterexample :
    (executeCode c6CexCode [sampleDF] 0).1.stdout = "0" ∧
    (executeCode c6CexCode [sampleDF] 0).1.error = none ∧
    containsStr "a=b" (executeCode c6CexCode [sampleDF] 0).1.stdout = false := by
  exact ⟨rfl, rfl, rfl⟩

/-- C6 (amended: restricted to final lines that the source's textual test
classifies as expressions — non-empty after stripping, not starting with a
control-flow/definition/import keyword, and containing no `=` character
before any `#`).  For such multi-line code, `execute` runs all preceding
lines as statements, then evaluates the final line and appends the printed
representation of its value to the captured console output. -/
theorem c6_final_expression_printed (pre : List Line) (t : String) (e : Expr)
    (st : List DataFrame) (r : Nat) (σ1 σ2 : EState) (v : Val)
    (hpre0 : pre ≠ [])
    (hnb : pyStrip (codeText (pre ++ [(⟨t, some (.exprStmt e)⟩ : Line)])) ≠ "")
    (hexpr : isExpressionLine (pyStrip t) = true)
    (hrun : execLines safeGlobals pre (initState st r) = (σ1, none))
    (he : evalExpr safeGlobals e σ1 = (σ2, .ok v)) :
    (executeCode (pre ++ [(⟨t, some (.exprStmt e)⟩ : Line)]) st r).1.stdout =
      pyStrip (σ2.out ++ strOfVal σ2.callerStore σ2.sandStore v ++ "\n") ∧
    (executeCode (pre ++ [(⟨t, some (.exprStmt e)⟩ : Line)]) st r).1.error = none := by
  have hlen : 0 < pre.length := List.length_pos.mpr hpre0
  have hbool : (isExpressionLine
      (pyStrip ((pre ++ [(⟨t, some (.exprStmt e)⟩ : Line)]).getLastD
        (⟨"", none⟩ : Line)).text) &&
      decide (1 < (pre ++ [(⟨t, some (.exprStmt e)⟩ : Line)]).length)) = true := by
    rw [List.getLastD_concat]
    simp only [List.length_append, List.length_cons, List.length_nil]
    rw [hexpr]
    simp only [Bool.true_and, decide_eq_true_eq]
    omega
  have hrunp : runProgram safeGlobals (pre ++ [(⟨t, some (.exprStmt e)⟩ : Line)])
      (initState st r) = (printVal σ2 v, none) := by
    rw [runProgram_expr_ok hbool (by rw [List.dropLast_concat]; exact hrun)]
    rw [List.getLastD_concat]
    exact evalTail_ok (by simp only [evalLastLine]; exact he)
  rw [executeCode_of_run_ok hnb hrunp]
  exact ⟨rfl, rfl⟩

/-- Witness for `c6_final_expression_printed`: `x = 3` then the bare final
expression `x` prints `3`. -/
theorem c6_witness :
    (executeCode [(⟨"x = 3", some (.assign "x" (.intLit 3))⟩ : Line),
      ⟨"x", some (.exprStmt (.name "x"))⟩] [sampleDF] 0).1.stdout = "3" := by
  have h := c6_final_expression_printed
    [⟨"x = 3", some (.assign "x" (.intLit 3))⟩] "x" (.name "x") [sampleDF] 0
    ⟨[("x", .vInt 3)], [sampleDF], [sampleDF], ""⟩
    ⟨[("x", .vInt 3)], [sampleDF], [sampleDF], ""⟩ (.vInt 3)
    (by simp) (by decide) (by decide) rfl rfl
  exact h.1.trans rfl

/-! ## Claim C7 — discovery of nested artifacts -/

/-- C7: every figure, and every table passing the exclusion test, nested at
arbitrary depth inside lists, tuples, sets, or the *values* of dicts of a
bound value, is discovered and appears in the collected sequence; dict keys
are never traversed — the collectors' output over a dict is exactly their
output over its value list, whatever the keys hold. -/
theorem c7_nested_discovery (cs ss : List DataFrame) (vals : List Val)
    (orig : DataFrame) :
    (∀ (fid : Nat) (v : Val), v ∈ vals → Occurs (.vFig fid) v →
      fid ∈ collectFigures vals)
    ∧ (∀ (r : Ref) (v : Val), v ∈ vals → Occurs (.vDFRef r) v →
        matchesOriginal (readDF cs ss r) orig = false →
        readDF cs ss r ∈ collectTables cs ss vals orig)
    ∧ (∀ ks vs : List Val,
        collectFigures [Val.vDict ks vs] = collectFigures vs ∧
        collectTables cs ss [Val.vDict ks vs] orig = collectTables cs ss vs orig) := by
  refine ⟨?_, ?_, ?_⟩
  · intro fid v hv hocc
    exact figsOfVal_sub hv (occurs_fig_collect hocc)
  · intro r v hv hocc hm
    exact tablesOfVal_sub hv cs ss (occurs_table_collect hocc cs ss hm)
  · intro ks vs
    constructor
    · rw [collectFigures_cons]
      simp [figsOfVal, collectFigures]
    · rw [collectTables_cons]
      simp [tablesOfVal, collectTables]

/-- Witness for `c7_nested_discovery`: figure 3 sits inside a list stored as
a dict value (under a key that is itself a figure) and is discovered. -/
theorem c7_witness :
    3 ∈ collectFigures [Val.vDict [.vFig 7] [.vList [.vFig 3]]] := by
  have hocc : Occurs (Val.vFig 3) (Val.vDict [.vFig 7] [.vList [.vFig 3]]) :=
    Occurs.inDictVal (Occurs.inList Occurs.refl (List.mem_singleton.mpr rfl))
      (List.mem_singleton.mpr rfl)
  exact (c7_nested_discovery [] [] [Val.vDict [.vFig 7] [.vList [.vFig 3]]]
    sampleDF).1 3 (Val.vDict [.vFig 7] [.vList [.vFig 3]])
    (List.mem_singleton.mpr rfl) hocc

/-! ## Claim C10 — the mutated private copy is itself collected -/

/-- C10: the private copy (sandbox object 0) stays bound as `df` in
`safe_globals` for the whole call, so after a successful run it is scanned
with the other binding values: if the code mutated it so that its shape or
column names no longer match the original dataset, it is included in the
result's tables; if it still matches structurally, it is excluded. -/
theorem c10_mutated_copy_collected (code : List Line) (st : List DataFrame)
    (r : Nat) (σ : EState)
    (hnb : pyStrip (codeText code) ≠ "")
    (hrun : runProgram safeGlobals code (initState st r) = (σ, none)) :
    (matchesOriginal (getDF σ.sandStore 0) (getDF σ.callerStore r) = false →
      getDF σ.sandStore 0 ∈ (executeCode code st r).1.tables)
    ∧ (matchesOriginal (getDF σ.sandStore 0) (getDF σ.callerStore r) = true →
      getDF σ.sandStore 0 ∉ (executeCode code st r).1.tables) := by
  rw [executeCode_of_run_ok hnb hrun]
  have hdf : Val.vDFRef (.sand 0) ∈ allValues safeGlobals σ := by
    simp [allValues, safeGlobals]
  constructor
  · intro hm
    exact collectTables_mem_of_ref hdf σ.callerStore σ.sandStore hm
  · intro hm hmem
    have hne := collectTables_not_matching σ.callerStore σ.sandStore
      (allValues safeGlobals σ) (getDF σ.callerStore r) _ hmem
    rw [hne] at hm
    exact Bool.false_ne_true hm

/-- Witness for `c10_mutated_copy_collected`: `df["c"] = [5]` adds a column
in place; the mutated copy (now 1×2) is returned among the tables. -/
theorem c10_witness :
    DataFrame.mk ["a", "c"] [[1, 5]] ∈
      (executeCode [(⟨"df[\"c\"] = [5]", some (.setColumn "df" "c" [5])⟩ : Line)]
        [sampleDF] 0).1.tables := by
  exact (c10_mutated_copy_collected
    [⟨"df[\"c\"] = [5]", some (.setColumn "df" "c" [5])⟩] [sampleDF] 0
    ⟨[], [sampleDF], [⟨["a", "c"], [[1, 5]]⟩], ""⟩ (by decide) rfl).1 (by decide)

end DataMind
